import Mathlib

/-!
Verification of the core folder operations of the Folder_Manager repository
(`utils/folder_operations.py`) against its specification.

Two shallow embeddings are used:

* a directory **tree** model (`Entry` / `EntryList`), for the purely
  recursive read-only algorithms `scan_empty_folder_structure` and
  `scan_folder_structure`;
* a **path-set filesystem** model (`FS`, holding the set of directory paths
  and the set of file paths, plus oracles telling which OS calls fail),
  for the mutating batch operations `delete_empty_folders`,
  `create_folder_structure` and `flatten_to_root`.

Paths are modelled as lists of path segments (`FsPath`).  Python's stable
`sorted(key=len(parts))` is modelled by `List.insertionSort`, which is also
stable, so it produces the same ordering on the same keys.  Python functions
that may raise an uncaught exception are modelled in `Except`.
-/

namespace FolderManager

abbrev FsPath := List String

/-- Render a path for error messages (segments joined by a slash). -/
def pathStr (p : FsPath) : String := String.intercalate "/" p

/-! ## Tree model of a directory subtree (for the read-only scans) -/

mutual
/-- A filesystem entry: a file, or a directory with its ordered children. -/
inductive Entry where
  | file (name : String)
  | dir (name : String) (children : EntryList)
/-- The ordered list of children of a directory (spelled out as a mutual
inductive so that all functions below are structurally recursive). -/
inductive EntryList where
  | nil
  | cons (head : Entry) (tail : EntryList)
end

def EntryList.toList : EntryList → List Entry
  | .nil => []
  | .cons e t => e :: t.toList

/-- Python `item.is_dir()` on a tree entry. -/
def entryIsDir : Entry → Bool
  | .dir _ _ => true
  | .file _ => false

/-- Python `item.is_file()` on a tree entry. -/
def entryIsFile : Entry → Bool
  | .file _ => true
  | .dir _ _ => false

/-- The last path component (`item.name`) of a tree entry. -/
def entryName : Entry → String
  | .file n => n
  | .dir n _ => n

mutual
/-- Embedding of `scan_empty_folder_structure(root_path)`.  `path` is the
path of the parent directory holding the entry, so the entry itself lives at
`path ++ [its name]`.  A file argument models the `is_dir()` guard failing
(the Python function returns the empty list then). -/
def scan_empty_folder_structure (path : FsPath) : Entry → List FsPath
  | .file _ => []
  | .dir name children =>
    let p := path ++ [name]
    if children.toList.isEmpty then [p]
    else if children.toList.any entryIsFile then
      scanEmptySubdirs p children
    else
      let subs := scanEmptyChildren p children
      let emptyFolders := (subs.map Prod.snd).flatten
      if subs.all (fun s => decide ((p ++ [s.1]) ∈ s.2)) then emptyFolders ++ [p]
      else emptyFolders

/-- The `has_files` branch of `scan_empty_folder_structure`: recurse into the
subdirectories only, concatenating (`empty_folders.extend`) their results. -/
def scanEmptySubdirs (p : FsPath) : EntryList → List FsPath
  | .nil => []
  | .cons c t =>
    (if entryIsDir c then scan_empty_folder_structure p c else []) ++ scanEmptySubdirs p t

/-- The only-subdirectories branch of `scan_empty_folder_structure`: for each
child record its name together with its recursively classified empty set, so
the caller can both `extend` the accumulator and test
`subdir not in subdir_empty_folders`. -/
def scanEmptyChildren (p : FsPath) : EntryList → List (String × List FsPath)
  | .nil => []
  | .cons c t => (entryName c, scan_empty_folder_structure p c) :: scanEmptyChildren p t
end

mutual
/-- Embedding of `root_path.rglob('*')`: every descendant entry of a
directory (strictly below it), as (full path, entry) pairs, depth-first. -/
def rglobEntries (p : FsPath) : Entry → List (FsPath × Entry)
  | .file _ => []
  | .dir name children => rglobList (p ++ [name]) children

/-- Descendants contributed by a child list: each child followed by the
child's own descendants. -/
def rglobList (base : FsPath) : EntryList → List (FsPath × Entry)
  | .nil => []
  | .cons c t => (base ++ [entryName c], c) :: rglobEntries base c ++ rglobList base t
end

/-- Embedding of `scan_folder_structure(source_path)`: collect every
descendant directory via `rglob`, then insert the root itself at the front
when it is not already present. -/
def scan_folder_structure (path : FsPath) (e : Entry) : List FsPath :=
  if entryIsDir e = false then []
  else
    let directories := ((rglobEntries path e).filter (fun q => entryIsDir q.2)).map Prod.fst
    let rootPath := path ++ [entryName e]
    if rootPath ∈ directories then directories else rootPath :: directories

/-! ## Path-set model of a mutable filesystem (for the mutating batches) -/

/-- A filesystem state: the set of existing directory paths, the set of
existing file paths, and oracles telling which OS calls raise
`PermissionError`/`OSError` (`failList` for `iterdir`, `failRm` for `rmdir`,
`failMkdir` for `mkdir`, `failMove` for `shutil.move`). -/
structure FS where
  dirs : List FsPath
  files : List FsPath
  failList : FsPath → Bool
  failRm : FsPath → Bool
  failMkdir : FsPath → Bool
  failMove : FsPath → Bool

/-- Python `p.is_dir()`. -/
def FS.isDir (fs : FS) (p : FsPath) : Bool := fs.dirs.contains p

/-- Python `p.is_file()`. -/
def FS.isFile (fs : FS) (p : FsPath) : Bool := fs.files.contains p

/-- Python `p.exists()`. -/
def FS.pexists (fs : FS) (p : FsPath) : Bool := fs.isDir p || fs.isFile p

/-- The direct entries of directory `p` (Python `p.iterdir()`): every
existing path whose parent is `p`. -/
def FS.childEntries (fs : FS) (p : FsPath) : List FsPath :=
  (fs.dirs ++ fs.files).filter (fun q => !q.isEmpty && q.dropLast == p)

/-- Python `p.rmdir()` (the actual deletion; callers guard it). -/
def FS.rmdir (fs : FS) (p : FsPath) : FS := { fs with dirs := fs.dirs.erase p }

/-- All nonempty prefixes of a path, shortest first. -/
def pathInits (p : FsPath) : List FsPath :=
  (List.range p.length).map (fun i => p.take (i + 1))

/-- Python `p.mkdir(parents=True, exist_ok=True)`: create `p` and every
missing ancestor, tolerating the ones that already exist. -/
def FS.mkdirp (fs : FS) (p : FsPath) : FS :=
  { fs with
    dirs := (pathInits p).foldl (fun ds q => if ds.contains q then ds else ds ++ [q]) fs.dirs }

/-- Python `p.parent`. -/
def parentPath (p : FsPath) : FsPath := p.dropLast

/-- Embedding of `is_folder_empty(folder_path)`: `not any(iterdir())`, and
`False` when `iterdir` raises (missing path, not a directory, or a
permission error). -/
def is_folder_empty (fs : FS) (p : FsPath) : Bool :=
  if fs.failList p then false
  else if !fs.isDir p then false
  else (fs.childEntries p).isEmpty

/-- Python `sorted(key=lambda p: len(p.parts), reverse=True)`: `a` may come
before `b` when `a` is at least as deep. -/
def depthGe (a b : FsPath) : Prop := b.length ≤ a.length

/-- Python `sorted(key=lambda p: len(p.parts))`: `a` may come before `b`
when `a` is at most as deep. -/
def depthLe (a b : FsPath) : Prop := a.length ≤ b.length

instance : DecidableRel depthGe := fun _ b => Nat.decLe b.length _
instance : DecidableRel depthLe := fun a _ => Nat.decLe a.length _

instance : IsTotal FsPath depthGe := ⟨fun a b => Nat.le_total b.length a.length⟩
instance : IsTrans FsPath depthGe := ⟨fun _ _ _ h1 h2 => Nat.le_trans h2 h1⟩
instance : IsTotal FsPath depthLe := ⟨fun a b => Nat.le_total a.length b.length⟩
instance : IsTrans FsPath depthLe := ⟨fun _ _ _ h1 h2 => Nat.le_trans h1 h2⟩

/-! ### delete_empty_folders -/

def errDelete (p : FsPath) : String := "Error deleting " ++ pathStr p
def errNotEmpty (p : FsPath) : String := "Folder not empty, skipping: " ++ pathStr p
def errNotExist (p : FsPath) : String :=
  "Path does not exist or is not a directory: " ++ pathStr p

/-- One iteration of the `delete_empty_folders` loop, threading the
filesystem, the success count and the error list. -/
def deleteStep (st : FS × Nat × List String) (folder_path : FsPath) : FS × Nat × List String :=
  let (fs, cnt, errs) := st
  if fs.pexists folder_path && fs.isDir folder_path then
    if is_folder_empty fs folder_path then
      if fs.failRm folder_path then (fs, cnt, errs ++ [errDelete folder_path])
      else (fs.rmdir folder_path, cnt + 1, errs)
    else (fs, cnt, errs ++ [errNotEmpty folder_path])
  else (fs, cnt, errs ++ [errNotExist folder_path])

/-- Embedding of `delete_empty_folders(folder_paths)`: sort deepest-first
(stably) and run the deletion loop, returning the final filesystem together
with `(success_count, errors)`. -/
def delete_empty_folders (fs : FS) (folder_paths : List FsPath) : FS × Nat × List String :=
  (folder_paths.insertionSort depthGe).foldl deleteStep (fs, 0, [])

/-! ### create_folder_structure -/

def errCreateRoot (p : FsPath) : String := "Cannot create destination root " ++ pathStr p
def errCreate (p : FsPath) : String := "Error creating " ++ pathStr p
def errValueError (p base : FsPath) : String :=
  "ValueError: " ++ pathStr p ++ " is not in the subpath of " ++ pathStr base

/-- Python `p.relative_to(base)`: the remainder of `p` past `base` when
`base` is a prefix of `p`, otherwise a `ValueError` (`none`). -/
def relative_to (p base : FsPath) : Option FsPath :=
  if base.isPrefixOf p then some (p.drop base.length) else none

/-- One iteration of the `create_folder_structure` loop.  `source_paths` is
the original (unsorted) input list, from which Python reads
`source_paths[0].parent` inside the loop.  A `ValueError` from `relative_to`
is not caught by the `except (PermissionError, OSError)` clause, so it
escapes the whole function: this is the `Except.error` case. -/
def createStep (source_paths : List FsPath) (destination_root : FsPath)
    (st : FS × Nat × List String) (source_path : FsPath) :
    Except String (FS × Nat × List String) :=
  let (fs, cnt, errs) := st
  let dp : Except String FsPath :=
    match source_paths with
    | s0 :: _ =>
      match relative_to source_path (parentPath s0) with
      | some rel => .ok (destination_root ++ rel)
      | none => .error (errValueError source_path (parentPath s0))
    | [] => .ok (destination_root ++ [source_path.getLastD ""])
  match dp with
  | .error e => .error e
  | .ok destination_path =>
    if fs.failMkdir destination_path then .ok (fs, cnt, errs ++ [errCreate destination_path])
    else .ok (fs.mkdirp destination_path, cnt + 1, errs)

/-- The `for source_path in sorted_paths` loop of `create_folder_structure`:
run `createStep` on each path in turn, propagating an uncaught exception
(`Except.error`) immediately, as Python does. -/
def createLoop (source_paths : List FsPath) (destination_root : FsPath) :
    List FsPath → FS × Nat × List String → Except String (FS × Nat × List String)
  | [], st => .ok st
  | sp :: t, st =>
    match createStep source_paths destination_root st sp with
    | .error e => .error e
    | .ok st' => createLoop source_paths destination_root t st'

/-- Embedding of `create_folder_structure(source_paths, destination_root)`:
create the destination root first (aborting with a single recorded error on
failure), then create each source directory in ascending-depth order.  The
result is `Except.error` precisely when the Python function raises. -/
def create_folder_structure (fs : FS) (source_paths : List FsPath)
    (destination_root : FsPath) : Except String (FS × Nat × List String) :=
  if fs.failMkdir destination_root then
    .ok (fs, 0, [errCreateRoot destination_root])
  else
    createLoop source_paths destination_root (source_paths.insertionSort depthLe)
      (fs.mkdirp destination_root, 0, [])

/-! ### validate_path -/

/-- The filesystem queries `validate_path` performs on a raw path string. -/
structure FSQuery where
  pathExists : String → Bool
  isDirStr : String → Bool

/-- Python `path_str.strip()`: drop leading and trailing whitespace
(written out over the character list so it evaluates definitionally). -/
def pyStrip (s : String) : String :=
  (((s.toList.dropWhile Char.isWhitespace).reverse.dropWhile Char.isWhitespace).reverse).asString

/-- Embedding of `validate_path(path_str)`, returning
`(is_valid, error_message, path_object)`.  The `Path` constructor applied to
the stripped string is modelled as the stripped string itself; the empty
`Path()` returned on empty input is `"."` (pathlib's default). -/
def validate_path (fs : FSQuery) (path_str : String) : Bool × String × String :=
  if pyStrip path_str = "" then (false, "Path cannot be empty", ".")
  else
    let path := pyStrip path_str
    if fs.pathExists path = false then (false, "Path does not exist", path)
    else if fs.isDirStr path = false then (false, "Path is not a directory", path)
    else (true, "", path)

/-- Does the string denote an absolute path (leading slash)? -/
def isAbsStr (s : String) : Bool := s.toList.head? == some '/'

/-- Following the spec's words only (the code never does this):
canonicalization resolves the input against the current working directory to
an absolute path; an already absolute input is returned unchanged. -/
def resolveAbs (cwd s : String) : String :=
  if isAbsStr s then s else cwd ++ "/" ++ s

/-! ### flatten_to_root -/

def errInvalidRoot (p : FsPath) : String := "Invalid root folder: " ++ pathStr p
def errMove (p : FsPath) : String := "Error moving " ++ pathStr p
def errRemove (p : FsPath) : String := "Error removing " ++ pathStr p

/-- The result record of `flatten_to_root` (keys `moved`,
`skipped_conflicts`, `removed_folders`, `errors`, `moves`). -/
structure FlattenResult where
  moved : Nat
  skipped_conflicts : Nat
  removed_folders : Nat
  errors : List String
  moves : List (FsPath × FsPath)

def emptyFlattenResult : FlattenResult := ⟨0, 0, 0, [], []⟩

/-- Python `Path(name).suffix` and `.stem` share this index: the position of
the last dot of `name`, provided it is neither the first nor the last
character; otherwise there is no suffix. -/
def pySplitIdx (name : String) : Option Nat :=
  let cs := name.toList
  match ((List.range cs.length).filter (fun i => cs.getD i ' ' = '.')).getLast? with
  | some i => if 0 < i ∧ i < cs.length - 1 then some i else none
  | none => none

/-- Python `Path(name).stem`. -/
def pyStem (name : String) : String :=
  match pySplitIdx name with
  | some i => (name.toList.take i).asString
  | none => name

/-- Python `Path(name).suffix`. -/
def pySuffix (name : String) : String :=
  match pySplitIdx name with
  | some i => (name.toList.drop i).asString
  | none => ""

/-- The candidate file name `f"{stem} ({counter}){suffix}"`. -/
def candName (stem : String) (counter : Nat) (suffix : String) : String :=
  stem ++ " (" ++ toString counter ++ ")" ++ suffix

/-- The `while candidate.exists()` loop of `_unique_destination`, with
explicit fuel (the loop terminates on a real filesystem because only
finitely many paths exist; `unique_destination` passes enough fuel for that
argument to go through). -/
def uniqueGo (fs : FS) (root : FsPath) (stem suffix : String) :
    FsPath → Nat → Nat → FsPath
  | candidate, _, 0 => candidate
  | candidate, counter, fuel + 1 =>
    if fs.pexists candidate then
      uniqueGo fs root stem suffix (root ++ [candName stem counter suffix]) (counter + 1) fuel
    else candidate

/-- Embedding of `_unique_destination(root, name)`. -/
def unique_destination (fs : FS) (root : FsPath) (name : String) : FsPath :=
  uniqueGo fs root (pyStem name) (pySuffix name) (root ++ [name]) 1
    (fs.dirs.length + fs.files.length + 2)

/-- The common tail of the per-file move: `dest.parent.mkdir(...)` followed
by `shutil.move(src, dest)`; an OS error from either is caught and recorded
(`failMove` oracle), otherwise the file changes path from `src` to `dest`
and the move is recorded. -/
def doMove (fs : FS) (r : FlattenResult) (src dest : FsPath) : FS × FlattenResult :=
  if fs.failMove src then (fs, { r with errors := r.errors ++ [errMove src] })
  else
    let fs1 := fs.mkdirp (parentPath dest)
    ({ fs1 with files := fs1.files.erase src ++ [dest] },
     { r with moved := r.moved + 1, moves := r.moves ++ [(src, dest)] })

/-- One iteration of the move phase of `flatten_to_root`: compute the
candidate destination `root/src.name`; on a conflict either skip
(`conflict_mode == 'skip'`) or divert to `_unique_destination`. -/
def moveStep (root_path : FsPath) (conflict_mode : String)
    (st : FS × FlattenResult) (src : FsPath) : FS × FlattenResult :=
  let (fs, r) := st
  let name := src.getLastD ""
  let dest := root_path ++ [name]
  if fs.pexists dest then
    if conflict_mode = "skip" then
      (fs, { r with skipped_conflicts := r.skipped_conflicts + 1 })
    else doMove fs r src (unique_destination fs root_path name)
  else doMove fs r src dest

/-- One iteration of the prune phase of `flatten_to_root`: remove the
directory when it is empty at this moment, recording an error when `rmdir`
raises. -/
def pruneStep (st : FS × FlattenResult) (d : FsPath) : FS × FlattenResult :=
  let (fs, r) := st
  if is_folder_empty fs d then
    if fs.failRm d then (fs, { r with errors := r.errors ++ [errRemove d] })
    else (fs.rmdir d, { r with removed_folders := r.removed_folders + 1 })
  else (fs, r)

/-- Is `p` strictly below `root` (a proper descendant path)? -/
def strictUnder (root p : FsPath) : Bool :=
  root.isPrefixOf p && decide (root.length < p.length)

/-- Embedding of `flatten_to_root(root_path, conflict_mode)`: validate the
root; collect (before any mutation) every file strictly under the root whose
parent is not the root; run the move phase; then collect the directories
strictly under the root and run the prune phase deepest-first. -/
def flatten_to_root (fs : FS) (root_path : FsPath) (conflict_mode : String) :
    FS × FlattenResult :=
  if !(fs.pexists root_path && fs.isDir root_path) then
    (fs, { emptyFlattenResult with errors := [errInvalidRoot root_path] })
  else
    let all_files := fs.files.filter
      (fun p => strictUnder root_path p && !(p.dropLast == root_path))
    let moved := all_files.foldl (moveStep root_path conflict_mode) (fs, emptyFlattenResult)
    let dirs := moved.1.dirs.filter (fun d => strictUnder root_path d)
    (dirs.insertionSort depthGe).foldl pruneStep moved

/-! ## Concrete fixtures used by the witness and counterexample theorems -/

/-- The always-succeeding OS-call oracle. -/
def noFail : FsPath → Bool := fun _ => false

/-- The scenario of the spec's testable property: root `R` containing
`R/x/y` (empty) and `R/x/z/f.txt`. -/
def treeC2 : Entry :=
  .dir "R" (.cons (.dir "x" (.cons (.dir "y" .nil)
    (.cons (.dir "z" (.cons (.file "f.txt") .nil)) .nil))) .nil)

/-- A single-child list holding one empty directory `y`. -/
def childrenC1 : EntryList := .cons (.dir "y" .nil) .nil

/-- A root holding one subdirectory and one file. -/
def treeC9 : Entry := .dir "R" (.cons (.dir "a" .nil) (.cons (.file "g.txt") .nil))

/-- A root `R` with one subdirectory `R/e` that is already empty and no
files at all. -/
def cfs3 : FS := ⟨[["R"], ["R", "e"]], [], noFail, noFail, noFail, noFail⟩

/-- A root `R` with a file `R/a/f.txt` to flatten whose candidate
destinations `R/f.txt` and `R/f (1).txt` both already exist. -/
def cfs4 : FS :=
  ⟨[["R"], ["R", "a"]], [["R", "a", "f.txt"], ["R", "f.txt"], ["R", "f (1).txt"]],
   noFail, noFail, noFail, noFail⟩

/-- An entirely empty filesystem on which every OS call succeeds. -/
def cfs6 : FS := ⟨[], [], noFail, noFail, noFail, noFail⟩

/-- A filesystem on which creating the directory `d` fails. -/
def cfs7 : FS := ⟨[], [], noFail, noFail, (fun p => p == ["d"]), noFail⟩

/-- A path-string oracle on which exactly the relative path `x` exists and
is a directory. -/
def q8 : FSQuery := ⟨fun s => s == "x", fun s => s == "x"⟩

/-! ## Lemmas about the tree scans -/

theorem entryIsFile_eq_false {c : Entry} (h : entryIsDir c = true) : entryIsFile c = false := by
  cases c <;> simp_all [entryIsDir, entryIsFile]

mutual

/-- Every path classified inside an entry lies strictly below the directory
holding the entry. -/
theorem scanEmpty_len : ∀ (e : Entry) (path q : FsPath),
    q ∈ scan_empty_folder_structure path e → path.length < q.length
  | .file _, path, q => by simp [scan_empty_folder_structure]
  | .dir name children, path, q => by
    intro h
    rw [scan_empty_folder_structure] at h
    by_cases h1 : children.toList.isEmpty = true
    · simp only [h1, if_true] at h
      simp only [List.mem_singleton] at h
      subst h
      simp
    · simp only [h1, if_false] at h
      by_cases h2 : children.toList.any entryIsFile = true
      · simp only [h2, if_true] at h
        have := scanSubdirs_len children (path ++ [name]) q h
        simp only [List.length_append, List.length_singleton] at this
        omega
      · simp only [h2, if_false] at h
        have hflat : ∀ q', q' ∈ ((scanEmptyChildren (path ++ [name]) children).map
            Prod.snd).flatten → path.length < q'.length := by
          intro q' hq'
          rw [List.mem_flatten] at hq'
          obtain ⟨s2, hs2, hq'⟩ := hq'
          rw [List.mem_map] at hs2
          obtain ⟨s, hs, rfl⟩ := hs2
          have := scanChildren_len children (path ++ [name]) s q' hs hq'
          simp only [List.length_append, List.length_singleton] at this
          omega
        by_cases h3 : (scanEmptyChildren (path ++ [name]) children).all
            (fun s => decide (((path ++ [name]) ++ [s.1]) ∈ s.2)) = true
        · simp only [h3, if_true] at h
          rcases List.mem_append.mp h with h | h
          · exact hflat q h
          · simp only [List.mem_singleton] at h
            subst h
            simp
        · simp only [h3, if_false] at h
          exact hflat q h

/-- Every path produced by the `has_files` branch lies strictly below the
directory being classified. -/
theorem scanSubdirs_len : ∀ (l : EntryList) (p q : FsPath),
    q ∈ scanEmptySubdirs p l → p.length < q.length
  | .nil, p, q => by simp [scanEmptySubdirs]
  | .cons c t, p, q => by
    intro h
    rw [scanEmptySubdirs] at h
    rcases List.mem_append.mp h with h | h
    · by_cases hc : entryIsDir c = true
      · rw [if_pos hc] at h
        exact scanEmpty_len c p q h
      · rw [if_neg hc] at h
        simp at h
    · exact scanSubdirs_len t p q h

/-- Every path in a child's recursively classified set lies strictly below
the parent directory. -/
theorem scanChildren_len : ∀ (l : EntryList) (p : FsPath) (s : String × List FsPath)
    (q : FsPath), s ∈ scanEmptyChildren p l → q ∈ s.2 → p.length < q.length
  | .nil, p, s, q => by simp [scanEmptyChildren]
  | .cons c t, p, s, q => by
    intro hs hq
    rw [scanEmptyChildren] at hs
    rcases List.mem_cons.mp hs with h | h
    · subst h
      exact scanEmpty_len c p q hq
    · exact scanChildren_len t p s q h hq

end

/-- The per-child pairs of the only-subdirectories branch, expressed over
the plain child list. -/
theorem scanEmptyChildren_eq (p : FsPath) : ∀ (l : EntryList),
    scanEmptyChildren p l
      = l.toList.map (fun c => (entryName c, scan_empty_folder_structure p c))
  | .nil => rfl
  | .cons c t => by
    rw [scanEmptyChildren, EntryList.toList, List.map_cons, scanEmptyChildren_eq p t]

/-- C1.  For a directory `D` whose direct entries are at least one
subdirectory and no files, `scan_empty_folder_structure` emits `D` if and
only if every direct subdirectory of `D` is itself a member of the set the
scan produced for that subdirectory; and each subdirectory's independently
classified empty paths are emitted regardless of whether `D` is emitted. -/
theorem scan_empty_only_subdirs_iff (path : FsPath) (name : String) (children : EntryList)
    (hne : children.toList ≠ [])
    (hdirs : ∀ c ∈ children.toList, entryIsDir c = true) :
    (((path ++ [name]) ∈ scan_empty_folder_structure path (.dir name children)) ↔
      ∀ c ∈ children.toList,
        ((path ++ [name]) ++ [entryName c]) ∈
          scan_empty_folder_structure (path ++ [name]) c)
    ∧ ∀ c ∈ children.toList, ∀ q ∈ scan_empty_folder_structure (path ++ [name]) c,
        q ∈ scan_empty_folder_structure path (.dir name children) := by
  have h1 : children.toList.isEmpty = false := by
    simp [List.isEmpty_iff, hne]
  have h2 : children.toList.any entryIsFile = false := by
    rw [List.any_eq_false]
    intro c hc
    simp [entryIsFile_eq_false (hdirs c hc)]
  have hallIff : ((scanEmptyChildren (path ++ [name]) children).all
      (fun s => decide (((path ++ [name]) ++ [s.1]) ∈ s.2)) = true) ↔
      (∀ c ∈ children.toList,
        ((path ++ [name]) ++ [entryName c]) ∈
          scan_empty_folder_structure (path ++ [name]) c) := by
    rw [scanEmptyChildren_eq]
    simp [List.all_eq_true]
  have hflatIff : ∀ q, q ∈ ((scanEmptyChildren (path ++ [name]) children).map
      Prod.snd).flatten ↔ ∃ c ∈ children.toList,
        q ∈ scan_empty_folder_structure (path ++ [name]) c := by
    intro q
    rw [scanEmptyChildren_eq]
    simp [List.mem_flatten]
  have hnotin : (path ++ [name]) ∉ ((scanEmptyChildren (path ++ [name]) children).map
      Prod.snd).flatten := by
    intro hmem
    rw [List.mem_flatten] at hmem
    obtain ⟨s2, hs2, hq⟩ := hmem
    rw [List.mem_map] at hs2
    obtain ⟨s, hs, rfl⟩ := hs2
    exact absurd (scanChildren_len children (path ++ [name]) s _ hs hq) (lt_irrefl _)
  constructor
  · rw [scan_empty_folder_structure]
    simp only [h1, h2, if_false]
    by_cases hall : (scanEmptyChildren (path ++ [name]) children).all
        (fun s => decide (((path ++ [name]) ++ [s.1]) ∈ s.2)) = true
    · simp only [hall, if_true]
      exact iff_of_true (List.mem_append.mpr (Or.inr (by simp))) (hallIff.mp hall)
    · simp only [hall, if_false]
      exact iff_of_false hnotin (fun hr => hall (hallIff.mpr hr))
  · intro c hc q hq
    rw [scan_empty_folder_structure]
    simp only [h1, h2, if_false]
    have hqflat : q ∈ ((scanEmptyChildren (path ++ [name]) children).map
        Prod.snd).flatten := (hflatIff q).mpr ⟨c, hc, hq⟩
    by_cases hall : (scanEmptyChildren (path ++ [name]) children).all
        (fun s => decide (((path ++ [name]) ++ [s.1]) ∈ s.2)) = true
    · simp only [hall, if_true]
      exact List.mem_append.mpr (Or.inl hqflat)
    · simp only [hall, if_false]
      exact hqflat

/-- Witness for C1: a directory with a single empty subdirectory satisfies
the hypotheses, and the scan of the child (`R/y`) contains the child, so
both the child and `R` itself are emitted. -/
theorem scan_empty_only_subdirs_iff_witness :
    (childrenC1.toList ≠ [] ∧ ∀ c ∈ childrenC1.toList, entryIsDir c = true)
    ∧ ((((["R"] : FsPath)) ∈ scan_empty_folder_structure [] (.dir "R" childrenC1)) ↔
        ∀ c ∈ childrenC1.toList,
          ((([] : FsPath) ++ ["R"]) ++ [entryName c]) ∈
            scan_empty_folder_structure (([] : FsPath) ++ ["R"]) c) := by
  refine ⟨⟨by simp [childrenC1, EntryList.toList], by decide⟩, ?_⟩
  exact (scan_empty_only_subdirs_iff [] "R" childrenC1
    (by simp [childrenC1, EntryList.toList]) (by decide)).1

/-- C2.  On the concrete tree `R/x/y` (empty) and `R/x/z/f.txt`, the scan
returns exactly the singleton `R/x/y`: neither `R`, nor `R/x`, nor `R/x/z`
is included. -/
theorem scan_empty_nested_scenario :
    scan_empty_folder_structure [] treeC2 = [["R", "x", "y"]] := by decide

/-! ## Lemmas about `rglob` and `scan_folder_structure` -/

mutual

/-- Every `rglob` descendant of an entry lies at least two segments below
the directory holding the entry. -/
theorem rglobEntries_len : ∀ (e : Entry) (p q : FsPath) (d : Entry),
    (q, d) ∈ rglobEntries p e → p.length + 2 ≤ q.length
  | .file _, p, q, d => by simp [rglobEntries]
  | .dir name children, p, q, d => by
    intro h
    rw [rglobEntries] at h
    have := rglobList_len children (p ++ [name]) q d h
    simp only [List.length_append, List.length_singleton] at this
    omega

/-- Every entry reached from a child list lies strictly below the base. -/
theorem rglobList_len : ∀ (l : EntryList) (base q : FsPath) (d : Entry),
    (q, d) ∈ rglobList base l → base.length + 1 ≤ q.length
  | .nil, base, q, d => by simp [rglobList]
  | .cons c t, base, q, d => by
    intro h
    rw [rglobList] at h
    rcases List.mem_cons.mp h with h | h
    · have hq : q = base ++ [entryName c] := congrArg Prod.fst h
      simp [hq]
    · rcases List.mem_append.mp h with h | h
      · have := rglobEntries_len c base q d h
        omega
      · exact rglobList_len t base q d h

end

/-- C9.  For every directory passed to `scan_folder_structure`, the result
contains the source root itself exactly once, together with exactly the
paths of the descendant directories (and nothing else, in particular no
file paths). -/
theorem scan_structure_root_and_descendants (path : FsPath) (e : Entry)
    (h : entryIsDir e = true) :
    (scan_folder_structure path e).count (path ++ [entryName e]) = 1
    ∧ ∀ q, q ∈ scan_folder_structure path e ↔
        (q = path ++ [entryName e]
          ∨ ∃ d, (q, d) ∈ rglobEntries path e ∧ entryIsDir d = true) := by
  have hdirIff : ∀ q, (q ∈ ((rglobEntries path e).filter
      (fun x => entryIsDir x.2)).map Prod.fst)
      ↔ ∃ d, (q, d) ∈ rglobEntries path e ∧ entryIsDir d = true := by
    intro q
    constructor
    · intro hq
      rw [List.mem_map] at hq
      obtain ⟨⟨q', d⟩, hmem, rfl⟩ := hq
      rw [List.mem_filter] at hmem
      exact ⟨d, hmem.1, hmem.2⟩
    · rintro ⟨d, hmem, hdir⟩
      rw [List.mem_map]
      exact ⟨(q, d), List.mem_filter.mpr ⟨hmem, hdir⟩, rfl⟩
  have hroot_notin : (path ++ [entryName e]) ∉ ((rglobEntries path e).filter
      (fun x => entryIsDir x.2)).map Prod.fst := by
    intro hmem
    obtain ⟨d, hmem, _⟩ := (hdirIff _).mp hmem
    have := rglobEntries_len e path _ d hmem
    simp only [List.length_append, List.length_singleton] at this
    omega
  rw [scan_folder_structure]
  simp only [h, Bool.true_eq_false, if_false, if_neg hroot_notin]
  constructor
  · rw [List.count_cons_self, List.count_eq_zero.mpr hroot_notin]
  · intro q
    rw [List.mem_cons, hdirIff q]

/-- Witness for C9: a root with one subdirectory and one file is a
directory, and the scan lists the root exactly once. -/
theorem scan_structure_root_and_descendants_witness :
    entryIsDir treeC9 = true
    ∧ (scan_folder_structure [] treeC9).count (([] : FsPath) ++ [entryName treeC9]) = 1 :=
  ⟨by decide, (scan_structure_root_and_descendants [] treeC9 (by decide)).1⟩

/-! ## Lemmas about the path-set filesystem model -/

theorem mem_of_contains {l : List FsPath} {a : FsPath} (h : l.contains a = true) : a ∈ l := by
  simpa [List.contains, List.elem_iff] using h

theorem contains_of_mem {l : List FsPath} {a : FsPath} (h : a ∈ l) : l.contains a = true := by
  simpa [List.contains, List.elem_iff] using h

/-- A path that does not exist at all is in particular not a file. -/
theorem pexists_false_not_mem_files {fs : FS} {p : FsPath} (h : fs.pexists p = false) :
    p ∉ fs.files := by
  intro hmem
  rw [FS.pexists, Bool.or_eq_false_iff] at h
  rw [FS.isFile] at h
  have hc := contains_of_mem hmem
  rw [h.2] at hc
  cases hc

/-- `mkdir` only touches the directory set. -/
theorem mkdirp_files (fs : FS) (p : FsPath) : (fs.mkdirp p).files = fs.files := rfl

/-! ## delete_empty_folders (claims C5 and C10) -/

/-- Each iteration of the deletion loop either leaves the filesystem and the
success count unchanged while appending exactly one error message, or
removes the path after re-verifying, in the state current at that moment,
that it exists, is a directory and has zero entries (and `rmdir` does not
fail). -/
theorem deleteStep_outcomes (fs : FS) (cnt : Nat) (errs : List String) (p : FsPath) :
    (∃ e, deleteStep (fs, cnt, errs) p = (fs, cnt, errs ++ [e]))
    ∨ (fs.pexists p = true ∧ fs.isDir p = true ∧ is_folder_empty fs p = true
        ∧ fs.failRm p = false
        ∧ deleteStep (fs, cnt, errs) p = (fs.rmdir p, cnt + 1, errs)) := by
  by_cases h1 : (fs.pexists p && fs.isDir p) = true
  · by_cases h2 : is_folder_empty fs p = true
    · by_cases h3 : fs.failRm p = true
      · exact Or.inl ⟨errDelete p, by simp [deleteStep, h1, h2, h3]⟩
      · have h3' : fs.failRm p = false := by simp_all
        have h1' : fs.pexists p = true ∧ fs.isDir p = true := by
          constructor <;> simp_all
        exact Or.inr ⟨h1'.1, h1'.2, h2, h3', by simp [deleteStep, h1, h2, h3']⟩
    · exact Or.inl ⟨errNotEmpty p, by simp [deleteStep, h1, h2]⟩
  · exact Or.inl ⟨errNotExist p, by simp [deleteStep, h1]⟩

/-- Folding the deletion loop accounts for every processed path exactly
once: the success count plus the number of errors grows by one per path. -/
theorem deleteFold_account (l : List FsPath) : ∀ (fs : FS) (cnt : Nat) (errs : List String),
    (l.foldl deleteStep (fs, cnt, errs)).2.1 + (l.foldl deleteStep (fs, cnt, errs)).2.2.length
      = cnt + errs.length + l.length := by
  induction l with
  | nil => intro fs cnt errs; simp
  | cons p t ih =>
    intro fs cnt errs
    rw [List.foldl_cons]
    rcases deleteStep_outcomes fs cnt errs p with ⟨e, he⟩ | ⟨_, _, _, _, he⟩
    · rw [he, ih]
      simp
      omega
    · rw [he, ih]
      simp
      omega

/-- C5.  `delete_empty_folders` processes the input paths in order of
descending path-segment depth (a permutation of the input, children before
ancestors); each iteration either re-verifies, immediately before removal,
that the path exists, is a directory and has zero entries and then removes
it, or leaves the state unchanged and records exactly one per-item error and
continues; the whole batch is a total fold returning the final success count
together with the accumulated ordered error list. -/
theorem delete_empty_folders_batch_spec (fs0 : FS) (folder_paths : List FsPath) :
    List.Sorted depthGe (folder_paths.insertionSort depthGe)
    ∧ (folder_paths.insertionSort depthGe).Perm folder_paths
    ∧ (∀ (fs : FS) (cnt : Nat) (errs : List String) (p : FsPath),
        (∃ e, deleteStep (fs, cnt, errs) p = (fs, cnt, errs ++ [e]))
        ∨ (fs.pexists p = true ∧ fs.isDir p = true ∧ is_folder_empty fs p = true
            ∧ fs.failRm p = false
            ∧ deleteStep (fs, cnt, errs) p = (fs.rmdir p, cnt + 1, errs)))
    ∧ delete_empty_folders fs0 folder_paths
        = (folder_paths.insertionSort depthGe).foldl deleteStep (fs0, 0, []) :=
  ⟨List.sorted_insertionSort depthGe folder_paths,
   List.perm_insertionSort depthGe folder_paths,
   deleteStep_outcomes, rfl⟩

/-- C10.  `delete_empty_folders` accounts for each input path exactly once:
the returned success count plus the number of returned error messages equals
the number of input paths. -/
theorem delete_empty_folders_accounting (fs0 : FS) (folder_paths : List FsPath) :
    (delete_empty_folders fs0 folder_paths).2.1
      + (delete_empty_folders fs0 folder_paths).2.2.length = folder_paths.length := by
  rw [delete_empty_folders]
  rw [deleteFold_account (folder_paths.insertionSort depthGe) fs0 0 []]
  simp [(List.perm_insertionSort depthGe folder_paths).length_eq]

/-! ## create_folder_structure (claims C6 and C7) -/

/-- C7.  If creating the destination root fails, the whole operation aborts
at once: no source directory is attempted (the filesystem is returned
unchanged), the success count is 0 and the error list holds exactly one
error. -/
theorem create_structure_root_failure_aborts (fs : FS) (source_paths : List FsPath)
    (destination_root : FsPath) (h : fs.failMkdir destination_root = true) :
    create_folder_structure fs source_paths destination_root
      = .ok (fs, 0, [errCreateRoot destination_root]) := by
  rw [create_folder_structure, if_pos h]

/-- Witness for C7 on a filesystem where creating `d` fails. -/
theorem create_structure_root_failure_aborts_witness :
    cfs7.failMkdir ["d"] = true
    ∧ create_folder_structure cfs7 [["a"]] ["d"] = .ok (cfs7, 0, [errCreateRoot ["d"]]) :=
  ⟨by decide, create_structure_root_failure_aborts cfs7 [["a"]] ["d"] (by decide)⟩

/-- Counterexample to C6: on an empty, never-failing filesystem, with the
source paths `a/s` and `b/q` (the second not under the first path's parent
`a`), `create_folder_structure` raises an uncaught `ValueError` — the batch
aborts instead of recording a per-item error and covering every input. -/
theorem create_structure_stray_path_aborts :
    create_folder_structure cfs6 [["a", "s"], ["b", "q"]] ["d"]
      = .error (errValueError ["b", "q"] ["a"]) := rfl

/-- For a source path lying under the first source path's parent, one loop
iteration never raises: it either records exactly one per-item error
(leaving the state otherwise unchanged) or creates the relocated directory
and bumps the success count. -/
theorem createStep_under (s0 : FsPath) (rest : List FsPath) (destination_root : FsPath)
    (st : FS × Nat × List String) (p : FsPath)
    (hp : (parentPath s0).isPrefixOf p = true) :
    (st.1.failMkdir (destination_root ++ p.drop (parentPath s0).length) = true
      ∧ createStep (s0 :: rest) destination_root st p
        = .ok (st.1, st.2.1,
            st.2.2 ++ [errCreate (destination_root ++ p.drop (parentPath s0).length)]))
    ∨ (st.1.failMkdir (destination_root ++ p.drop (parentPath s0).length) = false
      ∧ createStep (s0 :: rest) destination_root st p
        = .ok (st.1.mkdirp (destination_root ++ p.drop (parentPath s0).length),
            st.2.1 + 1, st.2.2)) := by
  obtain ⟨fs1, cnt1, errs1⟩ := st
  by_cases hf : fs1.failMkdir (destination_root ++ p.drop (parentPath s0).length) = true
  · exact Or.inl ⟨hf, by simp [createStep, relative_to, hp, hf]⟩
  · have hf' : fs1.failMkdir (destination_root ++ p.drop (parentPath s0).length) = false := by
      simp_all
    exact Or.inr ⟨hf', by simp [createStep, relative_to, hp, hf']⟩

/-- When every path in the remaining list lies under the first source path's
parent, the creation loop completes without raising and accounts for each
path exactly once. -/
theorem createLoop_ok (s0 : FsPath) (rest : List FsPath) (destination_root : FsPath)
    (l : List FsPath) : ∀ (st : FS × Nat × List String),
    (∀ p ∈ l, (parentPath s0).isPrefixOf p = true) →
    ∃ fs' cnt errs,
      createLoop (s0 :: rest) destination_root l st = .ok (fs', cnt, errs)
      ∧ cnt + errs.length = st.2.1 + st.2.2.length + l.length := by
  induction l with
  | nil =>
    intro st _
    exact ⟨st.1, st.2.1, st.2.2, by rw [createLoop], by simp⟩
  | cons p t ih =>
    intro st hall
    have hp : (parentPath s0).isPrefixOf p = true := hall p (by simp)
    have hrest : ∀ q ∈ t, (parentPath s0).isPrefixOf q = true :=
      fun q hq => hall q (by simp [hq])
    rw [createLoop]
    rcases createStep_under s0 rest destination_root st p hp with ⟨_, he⟩ | ⟨_, he⟩
    · rw [he]
      obtain ⟨fs', cnt, errs, heq, hacc⟩ := ih _ hrest
      refine ⟨fs', cnt, errs, heq, ?_⟩
      simp at hacc
      simp
      omega
    · rw [he]
      obtain ⟨fs', cnt, errs, heq, hacc⟩ := ih _ hrest
      refine ⟨fs', cnt, errs, heq, ?_⟩
      simp at hacc
      simp
      omega

/-- C6 (amended).  After the destination root has been created, a failure
creating a single destination directory records a per-item error and the
loop continues, and the batch returns a success count and error list that
together cover every input path — provided every source path lies under the
first source path's parent.  (A source path outside the first path's parent
instead raises an uncaught `ValueError` aborting the whole batch, see the
counterexample.) -/
theorem create_structure_mkdir_failures_continue (fs : FS) (s0 : FsPath)
    (rest : List FsPath) (destination_root : FsPath)
    (hroot : fs.failMkdir destination_root = false)
    (hunder : ∀ p ∈ s0 :: rest, (parentPath s0).isPrefixOf p = true) :
    (∃ fs' cnt errs,
        create_folder_structure fs (s0 :: rest) destination_root = .ok (fs', cnt, errs)
        ∧ cnt + errs.length = (s0 :: rest).length)
    ∧ ∀ (st : FS × Nat × List String) (p : FsPath),
        (parentPath s0).isPrefixOf p = true →
        (st.1.failMkdir (destination_root ++ p.drop (parentPath s0).length) = true
          ∧ createStep (s0 :: rest) destination_root st p
            = .ok (st.1, st.2.1,
                st.2.2 ++ [errCreate (destination_root ++ p.drop (parentPath s0).length)]))
        ∨ (st.1.failMkdir (destination_root ++ p.drop (parentPath s0).length) = false
          ∧ createStep (s0 :: rest) destination_root st p
            = .ok (st.1.mkdirp (destination_root ++ p.drop (parentPath s0).length),
                st.2.1 + 1, st.2.2)) := by
  constructor
  · rw [create_folder_structure, if_neg (by simp [hroot])]
    have hall : ∀ p ∈ (s0 :: rest).insertionSort depthLe,
        (parentPath s0).isPrefixOf p = true :=
      fun p hp => hunder p ((List.perm_insertionSort depthLe (s0 :: rest)).subset hp)
    obtain ⟨fs', cnt, errs, heq, hacc⟩ :=
      createLoop_ok s0 rest destination_root ((s0 :: rest).insertionSort depthLe)
        (fs.mkdirp destination_root, 0, []) hall
    refine ⟨fs', cnt, errs, heq, ?_⟩
    rw [hacc, (List.perm_insertionSort depthLe (s0 :: rest)).length_eq]
    simp
  · exact fun st p hp => createStep_under s0 rest destination_root st p hp

/-- Witness for the amended C6: both source paths lie under the first path's
parent (the filesystem root), the destination root is creatable, and the
batch completes covering both inputs. -/
theorem create_structure_mkdir_failures_continue_witness :
    (cfs6.failMkdir ["d"] = false
      ∧ ∀ p ∈ [["a"], ["a", "b"]], (parentPath ["a"]).isPrefixOf p = true)
    ∧ ∃ fs' cnt errs,
        create_folder_structure cfs6 [["a"], ["a", "b"]] ["d"] = .ok (fs', cnt, errs)
        ∧ cnt + errs.length = ([["a"], ["a", "b"]] : List FsPath).length :=
  ⟨⟨by decide, by decide⟩,
   (create_structure_mkdir_failures_continue cfs6 ["a"] [["a", "b"]] ["d"]
     (by decide) (by decide)).1⟩

/-! ## validate_path (claim C8) -/

/-- Counterexample to C8: the relative path string `x` names an existing
directory, validation succeeds, but the returned path is the stripped input
itself — a relative, non-canonicalized path, not the resolved/absolute
form the claim requires. -/
theorem validate_path_not_canonicalized :
    validate_path q8 "x" = (true, "", "x")
    ∧ isAbsStr "x" = false
    ∧ resolveAbs "/home" "x" ≠ "x" := by
  refine ⟨rfl, rfl, ?_⟩
  intro h
  have := congrArg String.toList h
  simp [resolveAbs, isAbsStr] at this

/-- C8 (amended).  `validate_path` succeeds exactly on inputs whose stripped
form is non-empty, exists and is a directory, and then returns the stripped
input itself (not a canonicalized form); a blank input fails with the
empty-input error, a missing path with the not-found error, and an existing
non-directory with the not-a-directory error.  It is a pure function of the
query oracle (no side effects). -/
theorem validate_path_returns_trimmed_input (fs : FSQuery) (s : String) :
    ((validate_path fs s).1 = true ↔
      (pyStrip s ≠ "" ∧ fs.pathExists (pyStrip s) = true ∧ fs.isDirStr (pyStrip s) = true))
    ∧ ((validate_path fs s).1 = true → (validate_path fs s).2.2 = pyStrip s)
    ∧ (pyStrip s = "" → validate_path fs s = (false, "Path cannot be empty", "."))
    ∧ (pyStrip s ≠ "" → fs.pathExists (pyStrip s) = false →
        validate_path fs s = (false, "Path does not exist", pyStrip s))
    ∧ (pyStrip s ≠ "" → fs.pathExists (pyStrip s) = true →
        fs.isDirStr (pyStrip s) = false →
        validate_path fs s = (false, "Path is not a directory", pyStrip s)) := by
  by_cases h0 : pyStrip s = ""
  · simp [validate_path, h0]
  · by_cases h1 : fs.pathExists (pyStrip s) = true
    · by_cases h2 : fs.isDirStr (pyStrip s) = true
      · simp [validate_path, h0, h1, h2]
      · simp [validate_path, h0, h1, h2]
    · simp [validate_path, h0, h1]

/-- Witness for the amended C8 at the whitespace-only input. -/
theorem validate_path_returns_trimmed_input_witness :
    pyStrip " " = "" ∧ validate_path q8 " " = (false, "Path cannot be empty", ".") :=
  ⟨rfl, (validate_path_returns_trimmed_input q8 " ").2.2.1 rfl⟩

/-! ## flatten_to_root, prune phase (claim C3) -/

/-- Counterexample to C3: in `cfs3` the subdirectory `R/e` is already empty
before flatten starts and the move phase moves nothing, yet the prune phase
of `flatten_to_root` removes it — pre-existing empty directories are not
left unchanged. -/
theorem flatten_removes_preexisting_empty_dir :
    cfs3.dirs = [["R"], ["R", "e"]]
    ∧ is_folder_empty cfs3 ["R", "e"] = true
    ∧ (flatten_to_root cfs3 ["R"] "rename").2.moves = []
    ∧ (flatten_to_root cfs3 ["R"] "rename").1.dirs = [["R"]] :=
  ⟨rfl, by decide, by decide, by decide⟩

/-- C3 (amended).  The prune phase of flatten removes a directory only after
verifying, in the filesystem state current at that moment, that it has zero
entries — whether it became empty through the move phase or was already
empty beforehand; a directory that is non-empty at prune time is never
removed. -/
theorem prune_step_only_removes_verified_empty (st : FS × FlattenResult) (d : FsPath)
    (h : (pruneStep st d).1.dirs ≠ st.1.dirs) :
    is_folder_empty st.1 d = true
    ∧ (pruneStep st d).1 = st.1.rmdir d
    ∧ (pruneStep st d).2.removed_folders = st.2.removed_folders + 1 := by
  obtain ⟨fs, r⟩ := st
  by_cases h1 : is_folder_empty fs d = true
  · by_cases h2 : fs.failRm d = true
    · simp [pruneStep, h1, h2] at h
    · have h2' : fs.failRm d = false := by simp_all
      exact ⟨h1, by simp [pruneStep, h1, h2'], by simp [pruneStep, h1, h2']⟩
  · simp [pruneStep, h1] at h

/-- Witness for the amended C3: the prune step on `R/e` changes the
directory set, and indeed `R/e` was verified empty first. -/
theorem prune_step_only_removes_verified_empty_witness :
    (pruneStep (cfs3, emptyFlattenResult) ["R", "e"]).1.dirs ≠ cfs3.dirs
    ∧ is_folder_empty cfs3 ["R", "e"] = true :=
  ⟨by decide,
   (prune_step_only_removes_verified_empty (cfs3, emptyFlattenResult) ["R", "e"]
     (by decide)).1⟩

/-! ## flatten_to_root, move phase with rename mode (claim C4) -/

/-- The candidate-renaming loop stops at once on a free candidate. -/
theorem uniqueGo_of_not_exists (fs : FS) (root : FsPath) (stem suffix : String) :
    ∀ (fuel counter : Nat) (cand : FsPath), fs.pexists cand = false →
      uniqueGo fs root stem suffix cand counter fuel = cand := by
  intro fuel
  cases fuel with
  | zero => intro counter cand _; rfl
  | succ n =>
    intro counter cand h
    rw [uniqueGo]
    simp [h]

/-- Given enough fuel and some free numbered candidate, the renaming loop
returns the first free numbered candidate: all earlier numbers were taken. -/
theorem uniqueGo_finds (fs : FS) (root : FsPath) (stem suffix : String) :
    ∀ (fuel counter : Nat) (cand : FsPath),
      fs.pexists cand = true →
      (∃ k, k < fuel ∧ fs.pexists (root ++ [candName stem (counter + k) suffix]) = false) →
      ∃ k, k < fuel
        ∧ uniqueGo fs root stem suffix cand counter fuel
            = root ++ [candName stem (counter + k) suffix]
        ∧ fs.pexists (root ++ [candName stem (counter + k) suffix]) = false
        ∧ ∀ j, j < k → fs.pexists (root ++ [candName stem (counter + j) suffix]) = true := by
  intro fuel
  induction fuel with
  | zero =>
    rintro counter cand _ ⟨k, hk, _⟩
    omega
  | succ n ih =>
    rintro counter cand hc ⟨k, hk, hfree⟩
    rw [uniqueGo, if_pos hc]
    by_cases h0 : fs.pexists (root ++ [candName stem counter suffix]) = true
    · have hex : ∃ j, j < n
          ∧ fs.pexists (root ++ [candName stem ((counter + 1) + j) suffix]) = false := by
        cases k with
        | zero =>
          rw [Nat.add_zero] at hfree
          rw [hfree] at h0
          cases h0
        | succ j =>
          refine ⟨j, by omega, ?_⟩
          have harith : (counter + 1) + j = counter + (j + 1) := by omega
          rw [harith]
          exact hfree
      obtain ⟨j, hj, heq, hf, hmin⟩ := ih (counter + 1) _ h0 hex
      have harith : counter + (j + 1) = (counter + 1) + j := by omega
      refine ⟨j + 1, by omega, ?_, ?_, ?_⟩
      · rw [harith]
        exact heq
      · rw [harith]
        exact hf
      · intro i hi
        cases i with
        | zero =>
          rw [Nat.add_zero]
          exact h0
        | succ i' =>
          have harith2 : counter + (i' + 1) = (counter + 1) + i' := by omega
          rw [harith2]
          exact hmin i' (by omega)
    · have h0' : fs.pexists (root ++ [candName stem counter suffix]) = false := by
        simp_all
      refine ⟨0, by omega, ?_, ?_, ?_⟩
      · rw [Nat.add_zero]
        exact uniqueGo_of_not_exists fs root stem suffix n (counter + 1) _ h0'
      · rw [Nat.add_zero]
        exact h0'
      · intro j hj
        omega

/-- `_unique_destination` returns `root/"stem (n)suffix"` for the smallest
`n ≥ 1` whose candidate does not exist, whenever the base name conflicts and
some candidate within the fuel bound is free. -/
theorem unique_destination_spec (fs : FS) (root : FsPath) (name : String)
    (hbase : fs.pexists (root ++ [name]) = true)
    (hfree : ∃ n, 1 ≤ n ∧ n ≤ fs.dirs.length + fs.files.length + 1
      ∧ fs.pexists (root ++ [candName (pyStem name) n (pySuffix name)]) = false) :
    ∃ n, 1 ≤ n
      ∧ unique_destination fs root name = root ++ [candName (pyStem name) n (pySuffix name)]
      ∧ fs.pexists (root ++ [candName (pyStem name) n (pySuffix name)]) = false
      ∧ ∀ m, 1 ≤ m → m < n →
          fs.pexists (root ++ [candName (pyStem name) m (pySuffix name)]) = true := by
  obtain ⟨n0, hn1, hn2, hnf⟩ := hfree
  have hex : ∃ k, k < fs.dirs.length + fs.files.length + 2
      ∧ fs.pexists (root ++ [candName (pyStem name) (1 + k) (pySuffix name)]) = false := by
    refine ⟨n0 - 1, by omega, ?_⟩
    have harith : 1 + (n0 - 1) = n0 := by omega
    rw [harith]
    exact hnf
  obtain ⟨k, hk, heq, hf, hmin⟩ := uniqueGo_finds fs root (pyStem name) (pySuffix name)
    (fs.dirs.length + fs.files.length + 2) 1 (root ++ [name]) hbase hex
  refine ⟨1 + k, by omega, ?_, hf, ?_⟩
  · rw [unique_destination]
    exact heq
  · intro m hm1 hm2
    have harith : m = 1 + (m - 1) := by omega
    rw [harith]
    exact hmin (m - 1) (by omega)

/-- C4.  In rename mode, when the candidate destination `root/filename`
already exists (and the move itself does not fail at the OS level, and some
numbered candidate is free within the fuel bound), the file is moved to
`root/"stem (n)suffix"` for the smallest `n ≥ 1` whose path does not exist;
in particular the chosen destination did not previously exist — no existing
file at the root is overwritten, and every pre-existing file other than the
source survives — and the `(source, destination)` pair is appended to the
result's `moves` list while `moved` is incremented. -/
theorem move_step_rename_unique_dest (fs : FS) (r : FlattenResult)
    (root_path src : FsPath)
    (hconflict : fs.pexists (root_path ++ [src.getLastD ""]) = true)
    (hmv : fs.failMove src = false)
    (hfree : ∃ n, 1 ≤ n ∧ n ≤ fs.dirs.length + fs.files.length + 1
      ∧ fs.pexists (root_path ++ [candName (pyStem (src.getLastD ""))
          n (pySuffix (src.getLastD ""))]) = false) :
    ∃ n, 1 ≤ n
      ∧ fs.pexists (root_path ++ [candName (pyStem (src.getLastD "")) n
          (pySuffix (src.getLastD ""))]) = false
      ∧ (∀ m, 1 ≤ m → m < n → fs.pexists (root_path ++ [candName (pyStem (src.getLastD ""))
          m (pySuffix (src.getLastD ""))]) = true)
      ∧ (moveStep root_path "rename" (fs, r) src).2.moves
          = r.moves ++ [(src, root_path ++ [candName (pyStem (src.getLastD "")) n
              (pySuffix (src.getLastD ""))])]
      ∧ (moveStep root_path "rename" (fs, r) src).2.moved = r.moved + 1
      ∧ (root_path ++ [candName (pyStem (src.getLastD "")) n
          (pySuffix (src.getLastD ""))]) ∉ fs.files
      ∧ ∀ q ∈ fs.files, q ≠ src → q ∈ (moveStep root_path "rename" (fs, r) src).1.files := by
  obtain ⟨n, hn1, hud, hf, hmin⟩ :=
    unique_destination_spec fs root_path (src.getLastD "") hconflict hfree
  have hsk : ¬(("rename" : String) = "skip") := by decide
  have hstep : moveStep root_path "rename" (fs, r) src
      = doMove fs r src (unique_destination fs root_path (src.getLastD "")) := by
    simp only [moveStep]
    rw [if_pos hconflict, if_neg hsk]
  have hmv' : ¬(fs.failMove src = true) := by simp [hmv]
  have hdm : doMove fs r src (unique_destination fs root_path (src.getLastD ""))
      = (let fs1 := fs.mkdirp (parentPath (unique_destination fs root_path (src.getLastD "")))
         ({ fs1 with files := fs1.files.erase src
              ++ [unique_destination fs root_path (src.getLastD "")] },
          { r with moved := r.moved + 1,
                   moves := r.moves
                     ++ [(src, unique_destination fs root_path (src.getLastD ""))] })) := by
    rw [doMove, if_neg hmv']
  refine ⟨n, hn1, hf, fun m hm1 hm2 => hmin m hm1 hm2, ?_, ?_, ?_, ?_⟩
  · rw [hstep, hdm, hud]
  · rw [hstep, hdm]
  · exact pexists_false_not_mem_files hf
  · intro q hq hne
    rw [hstep, hdm]
    show q ∈ (fs.mkdirp _).files.erase src ++ [unique_destination fs root_path (src.getLastD "")]
    rw [mkdirp_files]
    exact List.mem_append.mpr (Or.inl ((List.mem_erase_of_ne hne).mpr hq))

/-- Witness for C4 on `cfs4`: the candidate `R/f.txt` conflicts,
`R/f (1).txt` is taken, `R/f (2).txt` is free, and the move step records
exactly one additional move. -/
theorem move_step_rename_unique_dest_witness :
    (cfs4.pexists ["R", "f.txt"] = true
      ∧ cfs4.failMove ["R", "a", "f.txt"] = false
      ∧ cfs4.pexists ["R", "f (2).txt"] = false)
    ∧ (moveStep ["R"] "rename" (cfs4, emptyFlattenResult) ["R", "a", "f.txt"]).2.moved
        = emptyFlattenResult.moved + 1 := by
  refine ⟨⟨rfl, rfl, rfl⟩, ?_⟩
  obtain ⟨n, _, _, _, _, hmoved, _, _⟩ :=
    move_step_rename_unique_dest cfs4 emptyFlattenResult ["R"] ["R", "a", "f.txt"]
      rfl rfl ⟨2, by omega, by decide, rfl⟩
  exact hmoved

end FolderManager
